import Mathlib

/-!
Shallow embedding of the access-control service layer of the `ug` repository
(`src/core/services.py` over the models of `src/core/models.py`).

Entities (employees, vehicles), locations and operators are identified by
numeric ids.  Timestamps are naturals; the calendar date of a timestamp is its
epoch-day `t / dayLength` (Django's `timestamp__date` lookup).  The database is
a record of the employee table, the vehicle table, the append-only log and a
`now` clock used as the timestamp of the next created `LogEntry`
(`timestamp = models.DateTimeField(default=timezone.now)`).
-/

namespace UG

inductive Direction where
  | IN
  | OUT
deriving DecidableEq, Repr

inductive EntityType where
  | employee
  | vehicle
deriving DecidableEq, Repr

/-- Embeds `core.models.LogEntry`: location, entity_type, entity_id, direction,
recorded_by, timestamp. -/
structure LogEntry where
  location : Nat
  entityType : EntityType
  entityId : Nat
  direction : Direction
  recordedBy : Nat
  timestamp : Nat
deriving DecidableEq, Repr

def dayLength : Nat := 86400

/-- The calendar date of a timestamp (`timestamp__date`), as an epoch day. -/
def dateOf (t : Nat) : Nat := t / dayLength

/-- Embeds `core.models.Employee` (the fields the service layer reads). -/
structure Employee where
  id : Nat
  nume : String
  activ : Bool
deriving DecidableEq, Repr

/-- Embeds `core.models.Vehicle` (the fields the service layer reads). -/
structure Vehicle where
  id : Nat
  plate_number : String
  proprietar : String
  activ : Bool
deriving DecidableEq, Repr

/-- The database state seen by `AccessControlService`. -/
structure DB where
  employees : List Employee
  vehicles : List Vehicle
  log : List LogEntry
  now : Nat
deriving DecidableEq, Repr

/-- The filter `LogEntry.objects.filter(entity_type=..., entity_id=...)`. -/
def matchesEntity (et : EntityType) (eid : Nat) (e : LogEntry) : Bool :=
  e.entityType == et && e.entityId == eid

/-- One step of the maximum-timestamp scan: keep whichever of the accumulator
and the next entry is more recent, ties going to the later (more recently
inserted) entry. -/
def laterStep (acc : Option LogEntry) (e : LogEntry) : Option LogEntry :=
  match acc with
  | none => some e
  | some a => if a.timestamp ≤ e.timestamp then some e else some a

/-- Embeds `order_by('-timestamp').first()` over the entity's entries: the matching
entry with the maximal timestamp, ties broken towards insertion order (the
spec: "ties broken by insertion order / record id"). -/
def lastEntryFor (log : List LogEntry) (et : EntityType) (eid : Nat) :
    Option LogEntry :=
  (log.filter (matchesEntity et eid)).foldl laterStep none

/-- Embeds `AccessControlService.get_last_direction` (global: not per location). -/
def getLastDirection (log : List LogEntry) (et : EntityType) (eid : Nat) :
    Option Direction :=
  (lastEntryFor log et eid).map (·.direction)

/-- Outcome of `mark_employee_entry` / `mark_vehicle_entry`: success, the
"not found or inactive" error, or the invalid-transition error ("deja pe
teritoriu" / "nu este pe teritoriu"). -/
inductive MarkOutcome where
  | ok
  | errNotFound
  | errInvalidTransition
deriving DecidableEq, Repr

/-- Embeds `Employee.objects.filter(id=employee_id, activ=True).first()`. -/
def findActiveEmployee (db : DB) (eid : Nat) : Option Employee :=
  db.employees.find? (fun e => e.id == eid && e.activ)

/-- Embeds `Vehicle.objects.filter(id=vehicle_id, activ=True).first()`. -/
def findActiveVehicle (db : DB) (vid : Nat) : Option Vehicle :=
  db.vehicles.find? (fun v => v.id == vid && v.activ)

/-- Case-fold a string to its lower-case character sequence (the comparison
performed by the `nume__iexact` lookup). -/
def lowerChars (s : String) : List Char := s.data.map Char.toLower

/-- Strip leading and trailing whitespace (`str.strip()`). -/
def stripChars (s : String) : List Char :=
  ((s.data.dropWhile Char.isWhitespace).reverse.dropWhile
    Char.isWhitespace).reverse

/-- Embeds `Employee.objects.filter(nume__iexact=name, activ=True).first()`, where
`name` is already a character sequence. -/
def findEmployeeByName (db : DB) (name : List Char) : Option Employee :=
  db.employees.find?
    (fun e => lowerChars e.nume == name.map Char.toLower && e.activ)

/-- The entry `LogEntry.objects.create(...)` builds, stamped with the clock. -/
def newEntry (db : DB) (loc : Nat) (et : EntityType) (eid : Nat)
    (dir : Direction) (user : Nat) : LogEntry :=
  ⟨loc, et, eid, dir, user, db.now⟩

/-- Embeds `LogEntry.objects.create(...)`: append one entry, advance the clock. -/
def appendLog (db : DB) (loc : Nat) (et : EntityType) (eid : Nat)
    (dir : Direction) (user : Nat) : DB :=
  { db with log := db.log ++ [newEntry db loc et eid dir user],
            now := db.now + 1 }

/-- Embeds `AccessControlService.mark_employee_entry`. -/
def markEmployeeEntry (db : DB) (employeeId : Nat) (dir : Direction)
    (loc user : Nat) : MarkOutcome × DB :=
  match findActiveEmployee db employeeId with
  | none => (.errNotFound, db)
  | some _ =>
    let last := getLastDirection db.log .employee employeeId
    if dir = .IN ∧ last = some .IN then (.errInvalidTransition, db)
    else if dir = .OUT ∧ last ≠ some .IN then (.errInvalidTransition, db)
    else (.ok, appendLog db loc .employee employeeId dir user)

/-- Embeds `AccessControlService.mark_vehicle_entry`, including the owner-linking
step: after the vehicle entry is appended, if `vehicle.proprietar` is truthy
and an active employee's name matches it case-insensitively after trimming,
the employee is auto-marked when their state would change. -/
def markVehicleEntry (db : DB) (vehicleId : Nat) (dir : Direction)
    (loc user : Nat) : MarkOutcome × DB :=
  match findActiveVehicle db vehicleId with
  | none => (.errNotFound, db)
  | some vehicle =>
    let last := getLastDirection db.log .vehicle vehicleId
    if dir = .IN ∧ last = some .IN then (.errInvalidTransition, db)
    else if dir = .OUT ∧ last ≠ some .IN then (.errInvalidTransition, db)
    else
      let db1 := appendLog db loc .vehicle vehicleId dir user
      if vehicle.proprietar ≠ "" then
        match findEmployeeByName db1 (stripChars vehicle.proprietar) with
        | some emp =>
          let empLast := getLastDirection db1.log .employee emp.id
          if (dir = .IN ∧ empLast ≠ some .IN) ∨
             (dir = .OUT ∧ empLast = some .IN) then
            (.ok, appendLog db1 loc .employee emp.id dir user)
          else (.ok, db1)
        | none => (.ok, db1)
      else (.ok, db1)

/-- Embeds `AccessControlService.is_entity_present`. -/
def isEntityPresent (db : DB) (et : EntityType) (eid : Nat) : Bool :=
  getLastDirection db.log et eid == some .IN

/-- The optional `WHERE location_id = %s` clause of `get_present_now`: it is
substituted inside the CTE, so it restricts the rows fed to the window
function. -/
def locFilter (loc : Option Nat) (log : List LogEntry) : List LogEntry :=
  match loc with
  | some l => log.filter (fun e => e.location == l)
  | none => log

/-- The distinct `(entity_type, entity_id)` partition keys of a log. -/
def keysOf (log : List LogEntry) : List (EntityType × Nat) :=
  (log.map (fun e => (e.entityType, e.entityId))).dedup

/-- Descending-timestamp order on log entries (`ORDER BY le.timestamp DESC`). -/
def tsGE (a b : LogEntry) : Prop := b.timestamp ≤ a.timestamp

instance : DecidableRel tsGE :=
  fun a b => inferInstanceAs (Decidable (b.timestamp ≤ a.timestamp))

/-- The `last_events` CTE of `get_present_now` applied to the (possibly
location-restricted) log: per partition key keep the top-1 row by descending
timestamp, retain it if its direction is `IN`, and order the result by
timestamp descending. -/
def presentRows (log : List LogEntry) : List LogEntry :=
  List.insertionSort tsGE
    ((keysOf log).filterMap (fun k =>
      match lastEntryFor log k.1 k.2 with
      | some e => if e.direction = .IN then some e else none
      | none => none))

/-- A row of the `get_present_now` result (the fields the claims inspect). -/
structure PresentRow where
  entityType : EntityType
  entityId : Nat
  name : String
  entry_time : Nat
  entry_location : Nat
deriving DecidableEq, Repr

/-- Embeds `AccessControlService.get_present_now`: the raw rows of the CTE query,
kept only when the entity's master record still exists (the detail fetch is
`filter(id__in=...)` with no `activ` condition; a row whose record was deleted
is dropped by the `entity_id in employees` / `in vehicles` guard). -/
def getPresentNow (db : DB) (loc : Option Nat) : List PresentRow :=
  (presentRows (locFilter loc db.log)).filterMap (fun e =>
    match e.entityType with
    | .employee =>
      match db.employees.find? (fun emp => emp.id == e.entityId) with
      | some emp =>
        some ⟨.employee, e.entityId, emp.nume, e.timestamp, e.location⟩
      | none => none
    | .vehicle =>
      match db.vehicles.find? (fun v => v.id == e.entityId) with
      | some v =>
        some ⟨.vehicle, e.entityId, v.plate_number, e.timestamp, e.location⟩
      | none => none)

/-- Whether an entity appears among the rows of `get_present_now`. -/
def presentIn (db : DB) (loc : Option Nat) (et : EntityType) (eid : Nat) :
    Bool :=
  (getPresentNow db loc).any (fun r => r.entityType == et && r.entityId == eid)

/-- Whether the entity's master record exists at all (deleted vs not). -/
def recordExists (db : DB) (et : EntityType) (eid : Nat) : Bool :=
  match et with
  | .employee => (db.employees.find? (fun e => e.id == eid)).isSome
  | .vehicle => (db.vehicles.find? (fun v => v.id == eid)).isSome

/-- The filter block of `get_visit_history`: optional location, optional
`timestamp__date__gte=date_from`, optional `timestamp__date__lte=date_to`,
optional entity type. -/
def visitFilter (loc : Option Nat) (dateFrom dateTo : Option Nat)
    (etf : Option EntityType) (e : LogEntry) : Bool :=
  (match loc with | some l => e.location == l | none => true) &&
  (match dateFrom with | some d => decide (d ≤ dateOf e.timestamp) | none => true) &&
  (match dateTo with | some d => decide (dateOf e.timestamp ≤ d) | none => true) &&
  (match etf with | some t => e.entityType == t | none => true)

/-- A visit record produced by `get_visit_history` (the fields the claims
inspect); `exit_time = none` means the entity is still present. -/
structure Visit where
  entityType : EntityType
  entityId : Nat
  entry_time : Nat
  exit_time : Option Nat
  entry_location : Nat
  exit_location : Option Nat
deriving DecidableEq, Repr

def closedVisit (cur exit : LogEntry) : Visit :=
  ⟨cur.entityType, cur.entityId, cur.timestamp, some exit.timestamp,
   cur.location, some exit.location⟩

def openVisit (cur : LogEntry) : Visit :=
  ⟨cur.entityType, cur.entityId, cur.timestamp, none, cur.location, none⟩

/-- The pairing loop of `get_visit_history` over one entity's time-ordered
entries, carrying the `current_entry` slot. -/
def pairAux (cur : Option LogEntry) : List LogEntry → List Visit
  | [] =>
    match cur with
    | some c => [openVisit c]
    | none => []
  | e :: rest =>
    match e.direction with
    | .IN => pairAux (some e) rest
    | .OUT =>
      match cur with
      | some c => closedVisit c e :: pairAux none rest
      | none => pairAux none rest

/-- Pair one entity's (time-ordered) entries into visits, starting with an
empty `current_entry` slot. -/
def pairVisits (l : List LogEntry) : List Visit := pairAux none l

/-- Ascending-timestamp order (`order_by(..., 'timestamp')`). -/
def tsLE (a b : LogEntry) : Prop := a.timestamp ≤ b.timestamp

instance : DecidableRel tsLE :=
  fun a b => inferInstanceAs (Decidable (a.timestamp ≤ b.timestamp))

def entityTypeIdx : EntityType → Nat
  | .employee => 0
  | .vehicle => 1

/-- The `order_by('entity_type', 'entity_id', ...)` order on partition keys
(`'employee' < 'vehicle'` as strings). -/
def keyLE (a b : EntityType × Nat) : Prop :=
  entityTypeIdx a.1 < entityTypeIdx b.1 ∨ (a.1 = b.1 ∧ a.2 ≤ b.2)

instance : DecidableRel keyLE :=
  fun a b =>
    inferInstanceAs
      (Decidable (entityTypeIdx a.1 < entityTypeIdx b.1 ∨ (a.1 = b.1 ∧ a.2 ≤ b.2)))

/-- Embeds `visits.sort(key=lambda x: x['entry_time'], reverse=True)`. -/
def entryDesc (a b : Visit) : Prop := b.entry_time ≤ a.entry_time

instance : DecidableRel entryDesc :=
  fun a b => inferInstanceAs (Decidable (b.entry_time ≤ a.entry_time))

/-- Embeds `AccessControlService.get_visit_history`: filter the log, order by
(entity_type, entity_id, timestamp), pair each entity's entries into visits,
sort all visits by entry time descending and truncate to `limit`. -/
def visitHistory (db : DB) (loc : Option Nat) (dateFrom dateTo : Option Nat)
    (etf : Option EntityType) (limit : Nat) : List Visit :=
  let filtered := db.log.filter (visitFilter loc dateFrom dateTo etf)
  let keys := List.insertionSort keyLE (keysOf filtered)
  let visits := (keys.map (fun k =>
    pairVisits (List.insertionSort tsLE
      (filtered.filter (matchesEntity k.1 k.2))))).flatten
  (List.insertionSort entryDesc visits).take limit

/-- Well-formed database: every logged timestamp is below the clock, so a
freshly created entry is the most recent one (timestamps are monotone in the
real system: `default=timezone.now`). -/
def logWF (db : DB) : Bool := db.log.all (fun e => e.timestamp < db.now)

/-! ### Lemmas about the most-recent-entry scan -/

theorem foldl_laterStep_mem :
    ∀ (l : List LogEntry) (acc : Option LogEntry) (e : LogEntry),
      l.foldl laterStep acc = some e → acc = some e ∨ e ∈ l := by
  intro l
  induction l with
  | nil => intro acc e h; exact Or.inl h
  | cons x xs ih =>
    intro acc e h
    rcases ih (laterStep acc x) e h with h' | h'
    · cases acc with
      | none =>
        simp only [laterStep] at h'
        exact Or.inr (by simp [← Option.some_inj.mp h'])
      | some a =>
        simp only [laterStep] at h'
        by_cases hle : a.timestamp ≤ x.timestamp
        · rw [if_pos hle] at h'
          exact Or.inr (by simp [← Option.some_inj.mp h'])
        · rw [if_neg hle] at h'
          exact Or.inl h'
    · exact Or.inr (List.mem_cons_of_mem _ h')

/-- The winning entry of `lastEntryFor` belongs to the log and matches the
requested key. -/
theorem lastEntryFor_key {log : List LogEntry} {et : EntityType} {eid : Nat}
    {e : LogEntry} (h : lastEntryFor log et eid = some e) :
    e.entityType = et ∧ e.entityId = eid ∧ e ∈ log := by
  rcases foldl_laterStep_mem _ _ _ h with h' | h'
  · exact absurd h' (by simp)
  · have hm := List.mem_filter.mp h'
    have hk := hm.2
    simp only [matchesEntity, Bool.and_eq_true, beq_iff_eq] at hk
    exact ⟨hk.1, hk.2, hm.1⟩

/-- Appending an entry for a different key does not change the winner. -/
theorem lastEntryFor_append_ne {et : EntityType} {eid : Nat} {x : LogEntry}
    (log : List LogEntry) (h : matchesEntity et eid x = false) :
    lastEntryFor (log ++ [x]) et eid = lastEntryFor log et eid := by
  unfold lastEntryFor
  rw [List.filter_append]
  simp [h]

/-- Appending a matching entry at least as recent as the whole log makes it
the winner. -/
theorem lastEntryFor_append_le {et : EntityType} {eid : Nat} {x : LogEntry}
    (log : List LogEntry) (h : matchesEntity et eid x = true)
    (hmax : ∀ e ∈ log, e.timestamp ≤ x.timestamp) :
    lastEntryFor (log ++ [x]) et eid = some x := by
  unfold lastEntryFor
  rw [List.filter_append, List.foldl_append]
  have hx : List.filter (matchesEntity et eid) [x] = [x] := by simp [h]
  rw [hx]
  cases hfold : (log.filter (matchesEntity et eid)).foldl laterStep none with
  | none => simp [laterStep]
  | some a =>
    rcases foldl_laterStep_mem _ _ _ hfold with h' | h'
    · exact absurd h' (by simp)
    · have ha := hmax a (List.mem_filter.mp h').1
      simp [laterStep, ha]

theorem getLastDirection_append_ne {et : EntityType} {eid : Nat}
    {x : LogEntry} (log : List LogEntry) (h : matchesEntity et eid x = false) :
    getLastDirection (log ++ [x]) et eid = getLastDirection log et eid := by
  unfold getLastDirection
  rw [lastEntryFor_append_ne log h]

theorem getLastDirection_append_le {et : EntityType} {eid : Nat}
    {x : LogEntry} (log : List LogEntry) (h : matchesEntity et eid x = true)
    (hmax : ∀ e ∈ log, e.timestamp ≤ x.timestamp) :
    getLastDirection (log ++ [x]) et eid = some x.direction := by
  unfold getLastDirection
  rw [lastEntryFor_append_le log h hmax]
  rfl

theorem logWF_le {db : DB} (hwf : logWF db = true) :
    ∀ e ∈ db.log, e.timestamp ≤ db.now := by
  intro e he
  have := List.all_eq_true.mp hwf e he
  have : e.timestamp < db.now := by simpa using this
  exact this.le

/-! ### Claim theorems -/

/-- C2: with the entity's active record in place, an IN while the entity's
most-recent direction is already IN, and an OUT while it is not IN (in
particular when the entity has no log entry at all), are both rejected with
the invalid-transition error, and the database — hence the entity's log — is
returned unchanged.  This holds for the employee and the vehicle service
alike. -/
theorem c2_invalid_transition_rejected (db : DB) (eid vid loc user : Nat)
    (emp : Employee) (veh : Vehicle)
    (hemp : findActiveEmployee db eid = some emp)
    (hveh : findActiveVehicle db vid = some veh) :
    (getLastDirection db.log .employee eid = some .IN →
      markEmployeeEntry db eid .IN loc user = (.errInvalidTransition, db)) ∧
    (getLastDirection db.log .employee eid ≠ some .IN →
      markEmployeeEntry db eid .OUT loc user = (.errInvalidTransition, db)) ∧
    (getLastDirection db.log .vehicle vid = some .IN →
      markVehicleEntry db vid .IN loc user = (.errInvalidTransition, db)) ∧
    (getLastDirection db.log .vehicle vid ≠ some .IN →
      markVehicleEntry db vid .OUT loc user = (.errInvalidTransition, db)) := by
  refine ⟨?_, ?_, ?_, ?_⟩
  · intro h1
    simp [markEmployeeEntry, hemp, h1]
  · intro h2
    simp [markEmployeeEntry, hemp, h2]
  · intro h3
    simp [markVehicleEntry, hveh, h3]
  · intro h4
    simp [markVehicleEntry, hveh, h4]

def dbC2 : DB :=
  ⟨[⟨1, "Ana", true⟩], [⟨2, "PL01", "", true⟩],
   [⟨1, .employee, 1, .IN, 0, 0⟩], 1⟩

theorem c2_invalid_transition_rejected_witness :
    markEmployeeEntry dbC2 1 .IN 1 0 = (.errInvalidTransition, dbC2) ∧
    markVehicleEntry dbC2 2 .OUT 1 0 = (.errInvalidTransition, dbC2) :=
  ⟨(c2_invalid_transition_rejected dbC2 1 2 1 0 ⟨1, "Ana", true⟩
      ⟨2, "PL01", "", true⟩ (by decide) (by decide)).1 (by decide),
   (c2_invalid_transition_rejected dbC2 1 2 1 0 ⟨1, "Ana", true⟩
      ⟨2, "PL01", "", true⟩ (by decide) (by decide)).2.2.2 (by decide)⟩

/-- C6: on a well-formed database, immediately after an accepted event the
entity's presence equals the event's polarity: true after an accepted IN,
false after an accepted OUT — for employees and vehicles alike. -/
theorem c6_isPresent_after_accepted (db : DB) (eid vid loc user : Nat)
    (dir : Direction) (hwf : logWF db = true) :
    (∀ db', markEmployeeEntry db eid dir loc user = (.ok, db') →
      isEntityPresent db' .employee eid = (dir == .IN)) ∧
    (∀ db', markVehicleEntry db vid dir loc user = (.ok, db') →
      isEntityPresent db' .vehicle vid = (dir == .IN)) := by
  have hmax := logWF_le hwf
  constructor
  · intro db' h
    simp only [markEmployeeEntry] at h
    cases hfind : findActiveEmployee db eid with
    | none => rw [hfind] at h; simp at h
    | some emp =>
      rw [hfind] at h
      dsimp only at h
      split_ifs at h
      · simp at h
      · simp at h
      · injection h with h1 h2
        subst h2
        simp only [isEntityPresent, appendLog]
        rw [getLastDirection_append_le db.log
          (by simp [matchesEntity, newEntry]) (fun e he => hmax e he)]
        cases dir <;> rfl
  · intro db' h
    simp only [markVehicleEntry] at h
    cases hfind : findActiveVehicle db vid with
    | none => rw [hfind] at h; simp at h
    | some veh =>
      rw [hfind] at h
      dsimp only at h
      split_ifs at h
      · simp at h
      · simp at h
      · -- owner nonempty: split on the employee lookup and the mirror guard
        split at h
        · -- lookup found an employee
          split_ifs at h
          · injection h with h1 h2
            subst h2
            simp only [isEntityPresent, appendLog]
            rw [getLastDirection_append_ne _
                (by simp [matchesEntity, newEntry]),
              getLastDirection_append_le db.log
                (by simp [matchesEntity, newEntry]) (fun e he => hmax e he)]
            cases dir <;> rfl
          · injection h with h1 h2
            subst h2
            simp only [isEntityPresent, appendLog]
            rw [getLastDirection_append_le db.log
              (by simp [matchesEntity, newEntry]) (fun e he => hmax e he)]
            cases dir <;> rfl
        · -- lookup found nothing
          injection h with h1 h2
          subst h2
          simp only [isEntityPresent, appendLog]
          rw [getLastDirection_append_le db.log
            (by simp [matchesEntity, newEntry]) (fun e he => hmax e he)]
          cases dir <;> rfl
      · injection h with h1 h2
        subst h2
        simp only [isEntityPresent, appendLog]
        rw [getLastDirection_append_le db.log
          (by simp [matchesEntity, newEntry]) (fun e he => hmax e he)]
        cases dir <;> rfl

def dbC6 : DB := ⟨[⟨1, "Ana", true⟩], [⟨2, "PL01", "", true⟩], [], 0⟩

def dbC6e : DB :=
  ⟨[⟨1, "Ana", true⟩], [⟨2, "PL01", "", true⟩],
   [⟨1, .employee, 1, .IN, 0, 0⟩], 1⟩

def dbC6v : DB :=
  ⟨[⟨1, "Ana", true⟩], [⟨2, "PL01", "", true⟩],
   [⟨1, .vehicle, 2, .IN, 0, 0⟩], 1⟩

theorem c6_isPresent_after_accepted_witness :
    isEntityPresent dbC6e .employee 1 = true ∧
    isEntityPresent dbC6v .vehicle 2 = true :=
  ⟨(c6_isPresent_after_accepted dbC6 1 2 1 0 .IN (by decide)).1 dbC6e
      (by decide),
   (c6_isPresent_after_accepted dbC6 1 2 1 0 .IN (by decide)).2 dbC6v
      (by decide)⟩

/-- C3: after a vehicle event is accepted, if the owner string is non-empty
and some active employee's name matches it case-insensitively after trimming,
then exactly one mirrored employee entry with the same location, operator and
direction is appended when (and only when) the employee's state would change;
in every other case (no match, or an empty owner string) the vehicle entry is
the only appended record. -/
theorem c3_owner_linking (db : DB) (vid loc user : Nat) (dir : Direction)
    (veh : Vehicle) (db' : DB)
    (hveh : findActiveVehicle db vid = some veh)
    (hok : markVehicleEntry db vid dir loc user = (.ok, db')) :
    (∀ emp : Employee, veh.proprietar ≠ "" →
      findEmployeeByName db (stripChars veh.proprietar) = some emp →
      ((dir = .IN ∧ getLastDirection db.log .employee emp.id ≠ some .IN) ∨
       (dir = .OUT ∧ getLastDirection db.log .employee emp.id = some .IN)) →
      db'.log = db.log ++ [newEntry db loc .vehicle vid dir user,
        ⟨loc, .employee, emp.id, dir, user, db.now + 1⟩]) ∧
    (∀ emp : Employee, veh.proprietar ≠ "" →
      findEmployeeByName db (stripChars veh.proprietar) = some emp →
      ¬((dir = .IN ∧ getLastDirection db.log .employee emp.id ≠ some .IN) ∨
        (dir = .OUT ∧ getLastDirection db.log .employee emp.id = some .IN)) →
      db'.log = db.log ++ [newEntry db loc .vehicle vid dir user]) ∧
    (findEmployeeByName db (stripChars veh.proprietar) = none →
      db'.log = db.log ++ [newEntry db loc .vehicle vid dir user]) ∧
    (veh.proprietar = "" →
      db'.log = db.log ++ [newEntry db loc .vehicle vid dir user]) := by
  have hemp_eq : ∀ i : Nat,
      getLastDirection
        (appendLog db loc .vehicle vid dir user).log .employee i =
      getLastDirection db.log .employee i := by
    intro i
    show getLastDirection
      (db.log ++ [newEntry db loc .vehicle vid dir user]) .employee i = _
    exact getLastDirection_append_ne _ (by simp [matchesEntity, newEntry])
  simp only [markVehicleEntry] at hok
  rw [hveh] at hok
  dsimp only at hok
  split_ifs at hok with hc1 hc2 hp
  · simp at hok
  · simp at hok
  · -- owner string non-empty
    split at hok
    next emp' heq =>
      have hfe' : findEmployeeByName db (stripChars veh.proprietar) =
          some emp' := heq
      split_ifs at hok with hm
      · injection hok with h1 h2
        subst h2
        refine ⟨?_, ?_, ?_, ?_⟩
        · intro emp hne hfe hcond
          have hemp : emp = emp' := by
            rw [hfe'] at hfe; exact (Option.some_inj.mp hfe).symm
          subst hemp
          simp [appendLog, newEntry]
        · intro emp hne hfe hcond
          have hemp : emp = emp' := by
            rw [hfe'] at hfe; exact (Option.some_inj.mp hfe).symm
          subst hemp
          exact absurd (by
            rcases hm with ⟨hd, hl⟩ | ⟨hd, hl⟩
            · exact Or.inl ⟨hd, by rw [← hemp_eq emp.id]; exact hl⟩
            · exact Or.inr ⟨hd, by rw [← hemp_eq emp.id]; exact hl⟩) hcond
        · intro hnone
          rw [hfe'] at hnone; exact absurd hnone (by simp)
        · intro hempty
          exact absurd hempty hp
      · injection hok with h1 h2
        subst h2
        refine ⟨?_, ?_, ?_, ?_⟩
        · intro emp hne hfe hcond
          have hemp : emp = emp' := by
            rw [hfe'] at hfe; exact (Option.some_inj.mp hfe).symm
          subst hemp
          exact absurd (by
            rcases hcond with ⟨hd, hl⟩ | ⟨hd, hl⟩
            · exact Or.inl ⟨hd, by rw [hemp_eq emp.id]; exact hl⟩
            · exact Or.inr ⟨hd, by rw [hemp_eq emp.id]; exact hl⟩) hm
        · intro emp hne hfe hcond
          simp [appendLog, newEntry]
        · intro hnone
          rw [hfe'] at hnone; exact absurd hnone (by simp)
        · intro hempty
          exact absurd hempty hp
    next heq =>
      have hfe' : findEmployeeByName db (stripChars veh.proprietar) =
          none := heq
      injection hok with h1 h2
      subst h2
      refine ⟨?_, ?_, ?_, ?_⟩
      · intro emp hne hfe hcond
        rw [hfe'] at hfe; exact absurd hfe (by simp)
      · intro emp hne hfe hcond
        rw [hfe'] at hfe; exact absurd hfe (by simp)
      · intro hnone
        simp [appendLog, newEntry]
      · intro hempty
        exact absurd hempty hp
  · -- owner string empty
    have hpe : veh.proprietar = "" := by
      by_contra hne; exact hp hne
    injection hok with h1 h2
    subst h2
    refine ⟨?_, ?_, ?_, ?_⟩
    · intro emp hne hfe hcond
      exact absurd hpe hne
    · intro emp hne hfe hcond
      exact absurd hpe hne
    · intro hnone
      simp [appendLog, newEntry]
    · intro hempty
      simp [appendLog, newEntry]

def dbC3 : DB :=
  ⟨[⟨1, "Jane Doe", true⟩], [⟨3, "ABC123", "jane doe ", true⟩], [], 0⟩

def dbC3' : DB :=
  ⟨[⟨1, "Jane Doe", true⟩], [⟨3, "ABC123", "jane doe ", true⟩],
   [⟨5, .vehicle, 3, .IN, 9, 0⟩, ⟨5, .employee, 1, .IN, 9, 1⟩], 2⟩

theorem c3_owner_linking_witness :
    dbC3'.log = dbC3.log ++ [newEntry dbC3 5 .vehicle 3 .IN 9,
      ⟨5, .employee, 1, .IN, 9, dbC3.now + 1⟩] :=
  (c3_owner_linking dbC3 3 5 9 .IN ⟨3, "ABC123", "jane doe ", true⟩ dbC3'
    (by decide) (by decide)).1 ⟨1, "Jane Doe", true⟩ (by decide) (by decide)
    (by decide)

/-- Processing two consecutive IN entries is the same as processing only the
second one, whatever the current slot and whatever comes before or after. -/
theorem pairAux_in_in (a b : LogEntry) (post : List LogEntry)
    (ha : a.direction = .IN) (hb : b.direction = .IN) :
    ∀ (pre : List LogEntry) (cur : Option LogEntry),
      pairAux cur (pre ++ a :: b :: post) = pairAux cur (pre ++ b :: post) := by
  intro pre
  induction pre with
  | nil =>
    intro cur
    simp only [List.nil_append, pairAux]
    rw [ha, hb]
  | cons p pre ih =>
    intro cur
    simp only [List.cons_append, pairAux]
    cases hp : p.direction with
    | IN =>
      simp only [hp]
      exact ih (some p)
    | OUT =>
      simp only [hp]
      cases cur with
      | some c => exact congrArg (fun l => closedVisit c p :: l) (ih none)
      | none => exact ih none

/-- C7: the pairing loop of `get_visit_history` tolerates two consecutive IN
events with no intervening OUT: the later IN overwrites the open-entry slot,
the earlier IN contributes no visit, and pairing proceeds exactly as if only
the later IN had been recorded. -/
theorem c7_double_in_tolerated (a b : LogEntry) (pre post : List LogEntry)
    (ha : a.direction = .IN) (hb : b.direction = .IN) :
    pairVisits (pre ++ a :: b :: post) = pairVisits (pre ++ b :: post) := by
  unfold pairVisits
  exact pairAux_in_in a b post ha hb pre none

theorem c7_double_in_tolerated_witness :
    pairVisits [⟨1, .employee, 1, .IN, 0, 5⟩, ⟨1, .employee, 1, .IN, 0, 7⟩,
        ⟨1, .employee, 1, .OUT, 0, 9⟩] =
      pairVisits [⟨1, .employee, 1, .IN, 0, 7⟩,
        ⟨1, .employee, 1, .OUT, 0, 9⟩] :=
  c7_double_in_tolerated ⟨1, .employee, 1, .IN, 0, 5⟩
    ⟨1, .employee, 1, .IN, 0, 7⟩ [] [⟨1, .employee, 1, .OUT, 0, 9⟩]
    (by decide) (by decide)

/-- C10: an OUT event reaching the pairing loop while the open-entry slot is
empty (an orphan OUT, e.g. the first in-range event whose matching IN
predates the date filter) is skipped: it emits no visit, closes nothing, and
the scan continues as if it were absent. -/
theorem c10_orphan_out_skipped (e : LogEntry) (rest : List LogEntry)
    (h : e.direction = .OUT) :
    pairAux none (e :: rest) = pairAux none rest ∧
      pairVisits (e :: rest) = pairVisits rest := by
  have hstep : pairAux none (e :: rest) = pairAux none rest := by
    simp only [pairAux]
    rw [h]
  exact ⟨hstep, hstep⟩

theorem c10_orphan_out_skipped_witness :
    pairAux none [⟨1, .employee, 1, .OUT, 0, 4⟩, ⟨1, .employee, 1, .IN, 0, 6⟩]
        = pairAux none [⟨1, .employee, 1, .IN, 0, 6⟩] ∧
      pairVisits [⟨1, .employee, 1, .OUT, 0, 4⟩, ⟨1, .employee, 1, .IN, 0, 6⟩]
        = pairVisits [⟨1, .employee, 1, .IN, 0, 6⟩] :=
  c10_orphan_out_skipped ⟨1, .employee, 1, .OUT, 0, 4⟩
    [⟨1, .employee, 1, .IN, 0, 6⟩] (by decide)

/-- C4: for an entity whose log is the clean alternating sequence
IN(t1), OUT(t2), IN(t3), the visit history is exactly two visits: the open
visit with entry t3 and no exit, then the closed visit with entry t1 and
exit t2 (most recent first). -/
theorem c4_clean_sequence_two_visits (db : DB) (et : EntityType)
    (eid l1 l2 l3 u1 u2 u3 t1 t2 t3 : Nat)
    (h12 : t1 < t2) (h23 : t2 < t3)
    (hlog : db.log = [⟨l1, et, eid, .IN, u1, t1⟩, ⟨l2, et, eid, .OUT, u2, t2⟩,
      ⟨l3, et, eid, .IN, u3, t3⟩]) :
    visitHistory db none none none none 500 =
      [⟨et, eid, t3, none, l3, none⟩, ⟨et, eid, t1, some t2, l1, some l2⟩] := by
  have h13 : t1 < t3 := h12.trans h23
  simp only [visitHistory, hlog]
  simp [visitFilter, keysOf, matchesEntity, List.insertionSort,
    List.orderedInsert, pairVisits, pairAux, tsLE, keyLE, closedVisit,
    openVisit, entryDesc, h12.le, h23.le, h13.le, h12.not_le, h23.not_le,
    h13.not_le]

def dbC4 : DB :=
  ⟨[], [], [⟨1, .employee, 7, .IN, 0, 10⟩, ⟨1, .employee, 7, .OUT, 0, 20⟩,
    ⟨2, .employee, 7, .IN, 0, 30⟩], 31⟩

theorem c4_clean_sequence_two_visits_witness :
    visitHistory dbC4 none none none none 500 =
      [⟨.employee, 7, 30, none, 2, none⟩, ⟨.employee, 7, 10, some 20, 1, some 1⟩] :=
  c4_clean_sequence_two_visits dbC4 .employee 7 1 1 2 0 0 0 10 20 30
    (by decide) (by decide) rfl

def dbC5 : DB :=
  ⟨[], [], [⟨1, .employee, 1, .IN, 0, 3 * 86400 + 5⟩], 300000⟩

/-- C5 counterexample: the claim says entries dated `dateTo` are excluded
(half-open range), but an entry whose date equals `dateTo` is returned by the
visit history: the code uses `timestamp__date__lte=date_to`, an inclusive
bound. -/
theorem c5_counterexample :
    dateOf (3 * 86400 + 5) = 3 ∧
      visitHistory dbC5 none (some 1) (some 3) none 500 =
        [⟨.employee, 1, 3 * 86400 + 5, none, 1, none⟩] := by
  decide

/-- C5 (amended): the date range of `get_visit_history` is closed on both
ends: a lone IN entry is reported exactly when `dateFrom ≤ date(entry)` and
`date(entry) ≤ dateTo`, so entries dated `dateFrom` and entries dated
`dateTo` are both included. -/
theorem c5_closed_date_range (db : DB) (e : LogEntry) (dF dT : Nat)
    (hlog : db.log = [e]) (hin : e.direction = .IN) :
    visitHistory db none (some dF) (some dT) none 500 =
      if dF ≤ dateOf e.timestamp ∧ dateOf e.timestamp ≤ dT then [openVisit e]
      else [] := by
  by_cases hr : dF ≤ dateOf e.timestamp ∧ dateOf e.timestamp ≤ dT
  · rw [if_pos hr]
    simp only [visitHistory, hlog]
    simp [visitFilter, hr.1, hr.2, keysOf, matchesEntity, List.insertionSort,
      List.orderedInsert, pairVisits, pairAux, hin, openVisit, entryDesc]
  · rw [if_neg hr]
    have hpe : visitFilter none (some dF) (some dT) none e = false := by
      simp only [visitFilter]
      rcases Nat.lt_or_ge (dateOf e.timestamp) dF with h | h1
      · simp [Nat.not_le_of_lt h]
      · have h2 : ¬ dateOf e.timestamp ≤ dT := fun h2 => hr ⟨h1, h2⟩
        simp [h2]
    simp only [visitHistory, hlog]
    simp [List.filter_cons, hpe, keysOf, List.insertionSort]

theorem c5_closed_date_range_witness :
    visitHistory dbC5 none (some 3) (some 3) none 500 =
      if 3 ≤ dateOf (3 * 86400 + 5 : Nat) ∧ dateOf (3 * 86400 + 5 : Nat) ≤ 3
      then [openVisit ⟨1, .employee, 1, .IN, 0, 3 * 86400 + 5⟩] else [] :=
  c5_closed_date_range dbC5 ⟨1, .employee, 1, .IN, 0, 3 * 86400 + 5⟩ 3 3
    rfl (by decide)

/-! ### Lemmas about the present-now query -/

theorem mem_keysOf {log : List LogEntry} {e : LogEntry} (he : e ∈ log) :
    (e.entityType, e.entityId) ∈ keysOf log := by
  unfold keysOf
  rw [List.mem_dedup]
  exact List.mem_map_of_mem _ he

/-- Membership in the CTE's result rows: exactly the winning entries whose
direction is IN. -/
theorem mem_presentRows {log : List LogEntry} {e : LogEntry} :
    e ∈ presentRows log ↔
      lastEntryFor log e.entityType e.entityId = some e ∧
        e.direction = .IN := by
  unfold presentRows
  rw [List.mem_insertionSort, List.mem_filterMap]
  constructor
  · rintro ⟨k, hk, hf⟩
    cases hlast : lastEntryFor log k.1 k.2 with
    | none => rw [hlast] at hf; exact absurd hf (by simp)
    | some x =>
      rw [hlast] at hf
      dsimp only at hf
      by_cases hdir : x.direction = .IN
      · rw [if_pos hdir] at hf
        have hex : x = e := Option.some_inj.mp hf
        subst hex
        obtain ⟨h1, h2, _⟩ := lastEntryFor_key hlast
        rw [← h1, ← h2] at hlast
        exact ⟨hlast, hdir⟩
      · rw [if_neg hdir] at hf
        exact absurd hf (by simp)
  · rintro ⟨hlast, hdir⟩
    obtain ⟨_, _, hmem⟩ := lastEntryFor_key hlast
    refine ⟨(e.entityType, e.entityId), mem_keysOf hmem, ?_⟩
    rw [hlast]
    dsimp only
    rw [if_pos hdir]

/-- Every row produced by `get_present_now` still has its master record. -/
theorem getPresentNow_recordExists {db : DB} {loc : Option Nat}
    {r : PresentRow} (hr : r ∈ getPresentNow db loc) :
    recordExists db r.entityType r.entityId = true := by
  unfold getPresentNow at hr
  rw [List.mem_filterMap] at hr
  obtain ⟨e, _, hf⟩ := hr
  cases het : e.entityType with
  | employee =>
    rw [het] at hf
    dsimp only at hf
    cases hfind : db.employees.find? (fun emp => emp.id == e.entityId) with
    | none => rw [hfind] at hf; exact absurd hf (by simp)
    | some emp =>
      rw [hfind] at hf
      have : r = ⟨.employee, e.entityId, emp.nume, e.timestamp, e.location⟩ :=
        (Option.some_inj.mp hf).symm
      subst this
      simp [recordExists, hfind]
  | vehicle =>
    rw [het] at hf
    dsimp only at hf
    cases hfind : db.vehicles.find? (fun v => v.id == e.entityId) with
    | none => rw [hfind] at hf; exact absurd hf (by simp)
    | some v =>
      rw [hfind] at hf
      have : r = ⟨.vehicle, e.entityId, v.plate_number, e.timestamp,
          e.location⟩ := (Option.some_inj.mp hf).symm
      subst this
      simp [recordExists, hfind]

/-- The key of every row of `get_present_now` comes from a winning entry, and
conversely every winning IN entry whose record exists produces a row. -/
theorem presentIn_iff {db : DB} {loc : Option Nat} {et : EntityType}
    {eid : Nat} :
    presentIn db loc et eid = true ↔
      (∃ e ∈ presentRows (locFilter loc db.log),
        e.entityType = et ∧ e.entityId = eid) ∧
        recordExists db et eid = true := by
  unfold presentIn
  rw [List.any_eq_true]
  constructor
  · rintro ⟨r, hr, hkey⟩
    simp only [Bool.and_eq_true, beq_iff_eq] at hkey
    have hrec := getPresentNow_recordExists hr
    rw [hkey.1, hkey.2] at hrec
    unfold getPresentNow at hr
    rw [List.mem_filterMap] at hr
    obtain ⟨e, he, hf⟩ := hr
    refine ⟨⟨e, he, ?_⟩, hrec⟩
    cases het : e.entityType with
    | employee =>
      rw [het] at hf
      dsimp only at hf
      cases hfind : db.employees.find? (fun emp => emp.id == e.entityId) with
      | none => rw [hfind] at hf; exact absurd hf (by simp)
      | some emp =>
        rw [hfind] at hf
        have hre : r = ⟨.employee, e.entityId, emp.nume, e.timestamp,
            e.location⟩ := (Option.some_inj.mp hf).symm
        subst hre
        have h1 : EntityType.employee = et := by simpa using hkey.1
        have h2 : e.entityId = eid := by simpa using hkey.2
        exact ⟨h1, h2⟩
    | vehicle =>
      rw [het] at hf
      dsimp only at hf
      cases hfind : db.vehicles.find? (fun v => v.id == e.entityId) with
      | none => rw [hfind] at hf; exact absurd hf (by simp)
      | some v =>
        rw [hfind] at hf
        have hre : r = ⟨.vehicle, e.entityId, v.plate_number, e.timestamp,
            e.location⟩ := (Option.some_inj.mp hf).symm
        subst hre
        have h1 : EntityType.vehicle = et := by simpa using hkey.1
        have h2 : e.entityId = eid := by simpa using hkey.2
        exact ⟨h1, h2⟩
  · rintro ⟨⟨e, he, hkey1, hkey2⟩, hrec⟩
    subst hkey1
    subst hkey2
    cases het : e.entityType with
    | employee =>
      rw [het] at hrec
      unfold recordExists at hrec
      cases hfind : db.employees.find? (fun emp => emp.id == e.entityId) with
      | none => rw [hfind] at hrec; exact absurd hrec (by simp)
      | some emp =>
        refine ⟨⟨.employee, e.entityId, emp.nume, e.timestamp, e.location⟩,
          ?_, by simp [het]⟩
        unfold getPresentNow
        rw [List.mem_filterMap]
        exact ⟨e, he, by rw [het]; dsimp only; rw [hfind]⟩
    | vehicle =>
      rw [het] at hrec
      unfold recordExists at hrec
      cases hfind : db.vehicles.find? (fun v => v.id == e.entityId) with
      | none => rw [hfind] at hrec; exact absurd hrec (by simp)
      | some v =>
        refine ⟨⟨.vehicle, e.entityId, v.plate_number, e.timestamp,
          e.location⟩, ?_, by simp [het]⟩
        unfold getPresentNow
        rw [List.mem_filterMap]
        exact ⟨e, he, by rw [het]; dsimp only; rw [hfind]⟩

def dbC1 : DB :=
  ⟨[⟨1, "Ana", true⟩], [],
   [⟨1, .employee, 1, .IN, 0, 0⟩, ⟨2, .employee, 1, .OUT, 0, 1⟩], 2⟩

/-- C1 counterexample: employee 1 enters at location 1, then exits at
location 2, so their globally most-recent entry is the OUT — yet
`get_present_now(location 1)` still lists them, because the SQL location
clause is applied inside the CTE, before the per-entity top-1 selection.
This falsifies the claim that an entity is listed iff its globally
most-recent entry is IN at the filtered location. -/
theorem c1_counterexample :
    getLastDirection dbC1.log .employee 1 = some .OUT ∧
      presentIn dbC1 (some 1) .employee 1 = true := by
  decide

/-- C1 (amended): the location filter of `get_present_now` restricts the log
*before* the most-recent-event selection: an entity is listed at location `l`
iff its most-recent entry among the events recorded at `l` has direction IN
and its master record still exists. -/
theorem c1_location_scoped_presence (db : DB) (l : Nat) (et : EntityType)
    (eid : Nat) :
    presentIn db (some l) et eid = true ↔
      getLastDirection (locFilter (some l) db.log) et eid = some .IN ∧
        recordExists db et eid = true := by
  rw [presentIn_iff]
  constructor
  · rintro ⟨⟨e, he, h1, h2⟩, hrec⟩
    rcases mem_presentRows.mp he with ⟨hlast, hdir⟩
    refine ⟨?_, hrec⟩
    rw [h1, h2] at hlast
    unfold getLastDirection
    rw [hlast]
    simp [hdir]
  · rintro ⟨hdir, hrec⟩
    unfold getLastDirection at hdir
    cases hlast : lastEntryFor (locFilter (some l) db.log) et eid with
    | none => rw [hlast] at hdir; exact absurd hdir (by simp)
    | some e =>
      rw [hlast] at hdir
      have hdir' : e.direction = .IN := by simpa using hdir
      obtain ⟨h1, h2, _⟩ := lastEntryFor_key hlast
      refine ⟨⟨e, ?_, h1, h2⟩, hrec⟩
      rw [mem_presentRows, h1, h2]
      exact ⟨hlast, hdir'⟩

/-- C9: an entity whose most-recent entry is IN but whose master record has
been deleted is reported present by `is_entity_present`, yet omitted from
every `get_present_now` listing (with or without a location filter): the two
presence views disagree. -/
theorem c9_presence_views_disagree (db : DB) (et : EntityType) (eid : Nat)
    (hin : getLastDirection db.log et eid = some .IN)
    (hrec : recordExists db et eid = false) :
    isEntityPresent db et eid = true ∧
      ∀ loc : Option Nat, presentIn db loc et eid = false := by
  constructor
  · unfold isEntityPresent
    rw [hin]
    rfl
  · intro loc
    cases hp : presentIn db loc et eid
    · rfl
    · exfalso
      rcases presentIn_iff.mp hp with ⟨_, hrec'⟩
      rw [hrec] at hrec'
      exact absurd hrec' (by simp)

def dbC9 : DB := ⟨[], [], [⟨1, .employee, 1, .IN, 0, 0⟩], 1⟩

theorem c9_presence_views_disagree_witness :
    isEntityPresent dbC9 .employee 1 = true ∧
      presentIn dbC9 none .employee 1 = false ∧
      presentIn dbC9 (some 1) .employee 1 = false :=
  ⟨(c9_presence_views_disagree dbC9 .employee 1 (by decide) (by decide)).1,
   (c9_presence_views_disagree dbC9 .employee 1 (by decide) (by decide)).2
     none,
   (c9_presence_views_disagree dbC9 .employee 1 (by decide) (by decide)).2
     (some 1)⟩

end UG
